import Mathlib

/-!
Verification of the Greatbatch device-data pipeline (`Greatbatch.py`).

The development shallowly embeds the processing core of the program:
XML parsing of device records (`parse_xml_file` / its helper `find_text`),
the chunked CSV writer (`write_split_csv`), the chunked download loop, the
parallel parse coordinator (worker dispatch + completion draining with a
cooperative cancellation flag), and the orchestrating pipeline
(`download_and_process_zip`).

Nondeterminism of the thread pool is made explicit: a run is parameterised
by the completion order of the per-file futures (a permutation of the file
indices) and by the value the shared cancellation flag has at each of the
well-defined check points (before each chunk write, at each worker
dispatch, at each iteration of the completion-draining loop).
-/

/-- An XML element: a tag, optional text content, and child elements.
Models the lxml element tree handed to `parse_xml_file`. -/
inductive XmlNode : Type where
  | mk (tag : String) (text : Option String) (children : List XmlNode)

def XmlNode.tag : XmlNode → String
  | .mk t _ _ => t

def XmlNode.text : XmlNode → Option String
  | .mk _ x _ => x

def XmlNode.children : XmlNode → List XmlNode
  | .mk _ _ c => c

mutual

/-- Proper descendants of one element, in document (preorder) order. -/
def nodeDescendants : XmlNode → List XmlNode
  | .mk _ _ ch => descendantsList ch

/-- All elements of the given forest and their descendants, in document
(preorder) order.  Models lxml's `root.findall('.//tag')` traversal order
(applied to `root.children`), before the tag filter. -/
def descendantsList : List XmlNode → List XmlNode
  | [] => []
  | c :: cs => (c :: nodeDescendants c) ++ descendantsList cs

end

/-- All elements reached from `n` by following a relative child path, in
document order.  Models `element.findall('a/b/c')`. -/
def findall_rel : XmlNode → List String → List XmlNode
  | n, [] => [n]
  | n, t :: rest =>
      (n.children.filter (fun c => c.tag = t)).flatMap (fun c => findall_rel c rest)

/-- First element matching a relative child path, if any.
Models `element.find(path)`. -/
def find_rel (n : XmlNode) (path : List String) : Option XmlNode :=
  (findall_rel n path).head?

/-- Python's `str.strip()` on the (ASCII) whitespace characters: drop
leading and trailing whitespace. -/
def strip (s : String) : String :=
  String.mk (((s.data.dropWhile Char.isWhitespace).reverse.dropWhile Char.isWhitespace).reverse)

/-- The per-device field lookup closure of `parse_xml_file`
(`Greatbatch.py` lines 28-30):
`element.text.strip() if element is not None and element.text else None`.
Python truthiness of `element.text`: the text must be present and not the
empty string; otherwise the result is `None`. -/
def find_text (device : XmlNode) (path : List String) : Option String :=
  match find_rel device path with
  | none => none
  | some element =>
    match element.text with
    | none => none
    | some t => if t = "" then none else some (strip t)

/-- A CSV row: association list of field name to optional value, in the
order the Python dict literal inserts its keys. -/
abbrev Row := List (String × Option String)

/-- The row dict built for one `<device>` element
(`Greatbatch.py` lines 32-42). -/
def mkRow (device : XmlNode) : Row :=
  [ ("deviceId", find_text device ["g:identifiers", "g:identifier", "g:deviceId"]),
    ("versionModelNumber", find_text device ["g:versionModelNumber"]),
    ("catalogNumber", find_text device ["g:catalogNumber"]),
    ("dunsNumber", find_text device ["g:dunsNumber"]),
    ("companyName", find_text device ["g:companyName"]),
    ("deviceDescription", find_text device ["g:deviceDescription"]),
    ("singleUse", find_text device ["g:singleUse"]),
    ("lotBatch", find_text device ["g:lotBatch"]),
    ("serialNumber", find_text device ["g:serialNumber"]) ]

/-- `parse_xml_file` (`Greatbatch.py` lines 17-46): one row per
`.//g:device` element of the parsed tree, in document order. -/
def parse_xml_file (root : XmlNode) : List Row :=
  ((descendantsList root.children).filter (fun n => n.tag = "g:device")).map mkRow

/-- The row-count threshold of `write_split_csv`. -/
def chunk_size : Nat := 500000

/-- `num_chunks = (total_rows // chunk_size) + (1 if total_rows % chunk_size else 0)`
(`Greatbatch.py` line 52). -/
def num_chunks (total_rows : Nat) : Nat :=
  total_rows / chunk_size + (if total_rows % chunk_size ≠ 0 then 1 else 0)

/-- `write_split_csv` (`Greatbatch.py` lines 48-62), returning the list of
(filename, chunk) pairs it writes: chunk `i` is `rows[i*chunk_size : (i+1)*chunk_size]`,
written to the requested path when there is a single chunk and to
`f"{base}_{i+1}{ext}"` otherwise.  `os.path.splitext` guarantees
`base ++ ext` is the requested output path, so the function takes the two
parts directly. -/
def write_split_csv (rows : List Row) (base ext : String) : List (String × List Row) :=
  (List.range (num_chunks rows.length)).map (fun i =>
    ((if num_chunks rows.length = 1 then base ++ ext
      else base ++ "_" ++ toString (i + 1) ++ ext),
     (rows.drop (i * chunk_size)).take chunk_size))

/-- One extracted `.xml` file: either unparseable (lxml raises) or a
well-formed element tree. -/
inductive XmlFile : Type where
  | malformed
  | wellFormed (root : XmlNode)

/-- Outcome of `parse_xml_file` on one file: the rows, or the per-file
exception lxml raises on malformed input. -/
def parseFile : XmlFile → Except Unit (List Row)
  | .malformed => .error ()
  | .wellFormed root => .ok (parse_xml_file root)

/-- Rows a completed future contributes to the aggregate: its result on
success, nothing when `future.result()` raised (the `except` branch at
`Greatbatch.py` line 164 only logs). -/
def resRows : Except Unit (List Row) → List Row
  | .ok rs => rs
  | .error _ => []

/-- Rows a file contributes to the final aggregate when it is parsed. -/
def fileRows (f : XmlFile) : List Row :=
  resRows (parseFile f)

/-- `worker` (`Greatbatch.py` lines 144-147): the cancellation flag is read
once at dispatch; if set the task is a no-op returning `[]`. -/
def worker (flagAtDispatch : Bool) (f : XmlFile) : Except Unit (List Row) :=
  if flagAtDispatch then .ok [] else parseFile f

/-- Number of `logging.exception` entries the draining loop emits: one per
future whose `result()` raised. -/
def loggedFailures (results : List (Except Unit (List Row))) : Nat :=
  (results.filter (fun r => match r with | .error _ => true | .ok _ => false)).length

/-- The completion-draining loop over `as_completed` (`Greatbatch.py`
lines 155-168).  `flags` gives the value of the cancellation flag at each
iteration's check; a set flag makes the function return early (`none`,
discarding the aggregate), otherwise the future's rows are appended. -/
def drainFrom : List Row → List Bool → List (Except Unit (List Row)) → Option (List Row)
  | acc, _, [] => some acc
  | acc, flags, r :: rest =>
    if flags.headD false then none
    else drainFrom (acc ++ resRows r) flags.tail rest

/-- Outcome of the chunked download loop: the bytes written to disk, the
running byte counter, and on cancellation the reported status text. -/
inductive DlOutcome : Type where
  | cancelled (file : List Nat) (downloaded : Nat) (status : String)
  | completed (file : List Nat) (downloaded : Nat)
deriving DecidableEq

/-- The chunk loop of the download branch (`Greatbatch.py` lines 95-105):
before writing each chunk the cancellation flag is checked; if set the
function returns leaving the partial file on disk. -/
def download_loop : List Nat → Nat → List (Bool × List Nat) → DlOutcome
  | file, downloaded, [] => .completed file downloaded
  | file, downloaded, (flag, chunk) :: rest =>
    if flag then .cancelled file downloaded "Cancelled during download"
    else download_loop (file ++ chunk) (downloaded + chunk.length) rest

/-- `requests.Response.raise_for_status` as called at `Greatbatch.py`
line 89: raises exactly for status codes 400-599. -/
def raise_for_status (status_code : Nat) : Except Unit Unit :=
  if 400 ≤ status_code ∧ status_code < 600 then .error () else .ok ()

/-- The per-file futures in completion order: `perm` lists the file
indices in the order `as_completed` yields them; each worker saw the
cancellation flag value `dispatchFlags.getD i false` when dispatched. -/
def pipeline_results (files : List XmlFile) (dispatchFlags : List Bool) (perm : List Nat) :
    List (Except Unit (List Row)) :=
  perm.map (fun i => worker (dispatchFlags.getD i false) (files.getD i .malformed))

/-- Terminal outcome of one run of `download_and_process_zip`
(download mode). -/
inductive RunResult : Type where
  | httpError
  | cancelledDownload (file : List Nat) (downloaded : Nat) (status : String)
  | extractionFailed
  | cancelledParsing
  | done (csv : List (String × List Row))
deriving DecidableEq

/-- `download_and_process_zip` (`Greatbatch.py` lines 68-188), download
mode, as a function of the run's nondeterministic schedule: the HTTP
status code, the download chunk sequence with the flag value at each
chunk-boundary check, the extraction outcome (the extracted files), the
flag value seen by each worker at dispatch, the completion order of the
futures, and the flag value at each draining-loop check. -/
def run_pipeline (status_code : Nat) (dlSched : List (Bool × List Nat))
    (extraction : Except Unit (List XmlFile)) (dispatchFlags : List Bool)
    (perm : List Nat) (drainFlags : List Bool) (base ext : String) : RunResult :=
  match raise_for_status status_code with
  | .error _ => .httpError
  | .ok _ =>
    match download_loop [] 0 dlSched with
    | .cancelled f d s => .cancelledDownload f d s
    | .completed _ _ =>
      match extraction with
      | .error _ => .extractionFailed
      | .ok files =>
        match drainFrom [] drainFlags (pipeline_results files dispatchFlags perm) with
        | none => .cancelledParsing
        | some rows => .done (write_split_csv rows base ext)

/-- The fixed nine field names of a device record, in dict insertion
order. -/
def fieldNames : List String :=
  ["deviceId", "versionModelNumber", "catalogNumber", "dunsNumber", "companyName",
   "deviceDescription", "singleUse", "lotBatch", "serialNumber"]

/-- Column inference of `pandas.DataFrame(list_of_dicts)`: keys in first
appearance order. -/
def insertKeys (acc : List String) (keys : List String) : List String :=
  keys.foldl (fun a k => if k ∈ a then a else a ++ [k]) acc

/-- Header of the CSV file `pandas.DataFrame(chunk).to_csv` writes. -/
def unionKeys (rows : List Row) : List String :=
  rows.foldl (fun acc row => insertKeys acc (row.map Prod.fst)) []

/-- A device element whose `serialNumber` child holds whitespace-only
text. -/
def wsDevice : XmlNode :=
  XmlNode.mk "g:device" none [XmlNode.mk "g:serialNumber" (some " ") []]

/-- A device element whose `serialNumber` child holds padded text. -/
def textDevice : XmlNode :=
  XmlNode.mk "g:device" none [XmlNode.mk "g:serialNumber" (some " x ") []]

/-- A well-formed scenario file root holding two `<g:device>` elements. -/
def goodRoot : XmlNode :=
  XmlNode.mk "g:gudid" none [XmlNode.mk "g:device" none [], XmlNode.mk "g:device" none []]

/-- The §8 scenario archive: three files of two device elements each, one
of them malformed. -/
def scenarioFiles : List XmlFile :=
  [.wellFormed goodRoot, .wellFormed goodRoot, .malformed]

/-- The all-null row of a `<g:device>` element with no children. -/
def emptyDeviceRow : Row := mkRow (XmlNode.mk "g:device" none [])

/-- A one-device file whose record carries the version text "A". -/
def fileA : XmlFile :=
  .wellFormed (XmlNode.mk "r" none
    [XmlNode.mk "g:device" none [XmlNode.mk "g:versionModelNumber" (some "A") []]])

/-- A one-device file whose record carries the version text "B". -/
def fileB : XmlFile :=
  .wellFormed (XmlNode.mk "r" none
    [XmlNode.mk "g:device" none [XmlNode.mk "g:versionModelNumber" (some "B") []]])

/-! ### Helper lemmas: the draining loop -/

/-- If the cancellation flag is clear at every check, the draining loop
completes and appends each future's rows in completion order. -/
theorem drainFrom_complete (results : List (Except Unit (List Row))) :
    ∀ (flags : List Bool) (acc : List Row),
      (∀ k, k < results.length → flags.getD k false = false) →
      drainFrom acc flags results = some (acc ++ results.flatMap resRows) := by
  induction results with
  | nil => intro flags acc _; simp [drainFrom]
  | cons r rest ih =>
    intro flags acc h
    cases flags with
    | nil =>
      rw [drainFrom]
      simp only [List.headD_nil, if_neg Bool.false_ne_true, List.tail_nil]
      rw [ih [] (acc ++ resRows r) (fun k _ => rfl)]
      simp [List.append_assoc]
    | cons b bs =>
      have hb : b = false := h 0 (by simp)
      subst hb
      rw [drainFrom]
      simp only [List.headD_cons, if_neg Bool.false_ne_true, List.tail_cons]
      rw [ih bs (acc ++ resRows r) (fun k hk => h (k + 1) (by simpa using Nat.succ_lt_succ hk))]
      simp [List.append_assoc]

/-- If the flag is set at some check that happens (i.e. while results are
still pending), the draining loop returns early with nothing. -/
theorem drainFrom_cancelled (results : List (Except Unit (List Row))) :
    ∀ (flags : List Bool) (acc : List Row),
      (∃ k, k < results.length ∧ flags.getD k false = true) →
      drainFrom acc flags results = none := by
  induction results with
  | nil =>
    intro flags acc h
    obtain ⟨k, hk, _⟩ := h
    exact absurd hk (by simp)
  | cons r rest ih =>
    intro flags acc h
    obtain ⟨k, hk, hflag⟩ := h
    cases flags with
    | nil => simp [List.getD] at hflag
    | cons b bs =>
      cases b with
      | true => rw [drainFrom]; simp
      | false =>
        cases k with
        | zero => simp [List.getD] at hflag
        | succ k' =>
          rw [drainFrom]
          simp only [List.headD_cons, if_neg Bool.false_ne_true, List.tail_cons]
          exact ih bs (acc ++ resRows r) ⟨k', by simpa using Nat.lt_of_succ_lt_succ hk, by simpa using hflag⟩

/-! ### Helper lemmas: the download loop -/

/-- If the flag is clear at every chunk boundary the download completes. -/
theorem download_loop_completes (sched : List (Bool × List Nat)) :
    ∀ (file : List Nat) (dl : Nat), (∀ p ∈ sched, p.1 = false) →
      ∃ f d, download_loop file dl sched = .completed f d := by
  induction sched with
  | nil => intro file dl _; exact ⟨file, dl, rfl⟩
  | cons p rest ih =>
    intro file dl h
    obtain ⟨flag, chunk⟩ := p
    have : flag = false := h (flag, chunk) (by simp)
    subst this
    rw [download_loop]
    simp only [if_neg Bool.false_ne_true]
    exact ih _ _ (fun q hq => h q (by simp [hq]))

/-- If the flag becomes set at some chunk boundary, the download loop
returns normally in the cancelled state; the bytes on disk equal the byte
counter reported at that moment, and the status is the cancellation
message. -/
theorem download_loop_cancelled (sched : List (Bool × List Nat)) :
    ∀ (file : List Nat) (dl : Nat), file.length = dl →
      (∃ p ∈ sched, p.1 = true) →
      ∃ f d, download_loop file dl sched = .cancelled f d "Cancelled during download" ∧
        f.length = d := by
  induction sched with
  | nil =>
    intro file dl _ h
    obtain ⟨p, hp, _⟩ := h
    exact absurd hp (by simp)
  | cons p rest ih =>
    intro file dl hinv h
    obtain ⟨flag, chunk⟩ := p
    cases flag with
    | true =>
      rw [download_loop]
      exact ⟨file, dl, by simp, hinv⟩
    | false =>
      rw [download_loop]
      simp only [if_neg Bool.false_ne_true]
      apply ih (file ++ chunk) (dl + chunk.length) (by simp [hinv])
      obtain ⟨q, hq, hqt⟩ := h
      rcases List.mem_cons.mp hq with hhead | htail
      · exact absurd (hhead ▸ hqt) (by simp)
      · exact ⟨q, htail, hqt⟩

/-! ### Helper lemmas: chunk arithmetic of the writer -/

theorem num_chunks_eq_ceil (N : Nat) : num_chunks N = (N + (chunk_size - 1)) / chunk_size := by
  unfold num_chunks chunk_size
  split <;> omega

theorem le_num_chunks_mul (N : Nat) : N ≤ num_chunks N * chunk_size := by
  unfold num_chunks chunk_size
  split <;> omega

theorem lt_of_lt_num_chunks {N i : Nat} (h : i < num_chunks N) : i * chunk_size < N := by
  unfold num_chunks chunk_size at *
  split at h <;> omega

theorem chunk_full_of_succ_lt {N i : Nat} (h : i + 1 < num_chunks N) :
    (i + 1) * chunk_size ≤ N := by
  unfold num_chunks chunk_size at *
  split at h <;> omega

theorem num_chunks_eq_one {N : Nat} (h0 : 0 < N) (h1 : N ≤ chunk_size) : num_chunks N = 1 := by
  unfold num_chunks chunk_size at *
  split <;> omega

theorem two_le_num_chunks {N : Nat} (h : chunk_size < N) : 2 ≤ num_chunks N := by
  unfold num_chunks chunk_size at *
  split <;> omega

theorem flatMap_congr_mem {α β : Type} {l : List α} {f g : α → List β}
    (h : ∀ a ∈ l, f a = g a) : l.flatMap f = l.flatMap g := by
  induction l with
  | nil => rfl
  | cons a l ih =>
    rw [List.flatMap_cons, List.flatMap_cons, h a (by simp),
      ih (fun x hx => h x (by simp [hx]))]

theorem range_chunks_flatMap :
    ∀ (n : Nat) (l : List Row), l.length ≤ n * chunk_size →
      (List.range n).flatMap (fun i => (l.drop (i * chunk_size)).take chunk_size) = l := by
  intro n
  induction n with
  | zero =>
    intro l hl
    have : l = [] := List.eq_nil_of_length_eq_zero (Nat.le_zero.mp (by simpa using hl))
    subst this
    rfl
  | succ n ih =>
    intro l hl
    rw [List.range_succ_eq_map, List.flatMap_cons, List.flatMap_map]
    have hcongr : ∀ a ∈ List.range n,
        (l.drop (Nat.succ a * chunk_size)).take chunk_size
          = ((l.drop chunk_size).drop (a * chunk_size)).take chunk_size := by
      intro a _
      rw [List.drop_drop]
      congr 2
      rw [Nat.succ_mul]
      omega
    rw [flatMap_congr_mem hcongr]
    rw [ih (l.drop chunk_size) (by rw [List.length_drop]; rw [Nat.succ_mul] at hl; omega)]
    simp [List.take_append_drop]

theorem write_split_csv_length (rows : List Row) (base ext : String) :
    (write_split_csv rows base ext).length = num_chunks rows.length := by
  simp [write_split_csv]

theorem write_split_csv_flatMap (rows : List Row) (base ext : String) :
    (write_split_csv rows base ext).flatMap (fun f => f.2) = rows := by
  rw [write_split_csv, List.flatMap_map]
  exact range_chunks_flatMap _ rows (le_num_chunks_mul rows.length)

theorem write_split_csv_getD (rows : List Row) (base ext : String) (i : Nat)
    (h : i < num_chunks rows.length) :
    (write_split_csv rows base ext).getD i default =
      ((if num_chunks rows.length = 1 then base ++ ext
        else base ++ "_" ++ toString (i + 1) ++ ext),
       (rows.drop (i * chunk_size)).take chunk_size) := by
  have hlen : i < (write_split_csv rows base ext).length := by
    rw [write_split_csv_length]; exact h
  rw [List.getD_eq_getElem _ _ hlen]
  simp [write_split_csv]

theorem write_split_csv_chunks (rows : List Row) (base ext : String) :
    ∀ f ∈ write_split_csv rows base ext, f.2 ≠ [] ∧ ∀ row ∈ f.2, row ∈ rows := by
  intro f hf
  rw [write_split_csv, List.mem_map] at hf
  obtain ⟨i, hi, rfl⟩ := hf
  rw [List.mem_range] at hi
  refine ⟨?_, ?_⟩
  · have hlt := lt_of_lt_num_chunks hi
    apply List.ne_nil_of_length_pos
    rw [List.length_take, List.length_drop]
    have hcs : (0:Nat) < chunk_size := by unfold chunk_size; omega
    rw [Nat.lt_min]
    omega
  · intro row hrow
    exact List.drop_subset _ _ (List.take_subset _ _ hrow)

/-! ### Claims about the writer -/

/-- C3: for a nonempty row list with split threshold `chunk_size = 500000`:
the writer emits exactly `ceil(N / chunk_size)` files whose chunks
concatenate back to the input (consecutive chunks); every file except
possibly the last holds exactly `chunk_size` rows; above the threshold
every file is named `base_(i+1) ++ ext`; at or below the threshold a
single file is written at the exact requested path with all the rows. -/
theorem claim_C3 (rows : List Row) (base ext : String) (hpos : 0 < rows.length) :
    (write_split_csv rows base ext).length = (rows.length + (chunk_size - 1)) / chunk_size ∧
    (write_split_csv rows base ext).flatMap (fun f => f.2) = rows ∧
    (∀ i, i + 1 < (write_split_csv rows base ext).length →
      ((write_split_csv rows base ext).getD i default).2.length = chunk_size) ∧
    (chunk_size < rows.length → ∀ i, i < (write_split_csv rows base ext).length →
      ((write_split_csv rows base ext).getD i default).1
        = base ++ "_" ++ toString (i + 1) ++ ext) ∧
    (rows.length ≤ chunk_size → write_split_csv rows base ext = [(base ++ ext, rows)]) := by
  refine ⟨?_, write_split_csv_flatMap rows base ext, ?_, ?_, ?_⟩
  · rw [write_split_csv_length, num_chunks_eq_ceil]
  · intro i hi
    rw [write_split_csv_length] at hi
    rw [write_split_csv_getD rows base ext i (by omega)]
    have hfull := chunk_full_of_succ_lt hi
    rw [Nat.succ_mul] at hfull
    simp only [List.length_take, List.length_drop]
    rw [Nat.min_def]
    split <;> omega
  · intro hbig i hi
    rw [write_split_csv_length] at hi
    rw [write_split_csv_getD rows base ext i hi]
    have h2 := two_le_num_chunks hbig
    simp only
    rw [if_neg (by omega)]
  · intro hle
    have h1 : num_chunks rows.length = 1 := num_chunks_eq_one hpos hle
    rw [write_split_csv, h1]
    have hr1 : List.range 1 = [0] := rfl
    rw [hr1, List.map_cons, List.map_nil, Nat.zero_mul, List.drop_zero,
      List.take_of_length_le hle, if_pos rfl]

/-- Witness for C3 at a concrete one-row input. -/
theorem claim_C3_witness :
    write_split_csv [([] : Row)] "out" ".csv" = [("out" ++ ".csv", [([] : Row)])] :=
  (claim_C3 [([] : Row)] "out" ".csv" (by decide)).2.2.2.2 (by decide)

/-- C9: for the empty row list the writer computes zero chunks and writes
no file at all — neither at the requested path nor any suffixed one. -/
theorem claim_C9 : ∀ base ext : String, write_split_csv [] base ext = [] :=
  fun _ _ => rfl

/-! ### Helper lemmas: the parse coordinator and whole-run aggregation -/

theorem range_getD_flatMap {α β : Type} (d : α) :
    ∀ (l : List α) (g : α → List β),
      (List.range l.length).flatMap (fun i => g (l.getD i d)) = l.flatMap g := by
  intro l
  induction l with
  | nil => intro g; rfl
  | cons a t ih =>
    intro g
    rw [List.length_cons, List.range_succ_eq_map, List.flatMap_cons, List.flatMap_map]
    have hc : ∀ i ∈ List.range t.length,
        g ((a :: t).getD (Nat.succ i) d) = g (t.getD i d) := by
      intro i _
      rw [List.getD_cons_succ]
    rw [flatMap_congr_mem hc, ih g, List.getD_cons_zero, List.flatMap_cons]

theorem pipeline_results_noflag (files : List XmlFile) (dispatchFlags : List Bool)
    (perm : List Nat) (h : ∀ k, dispatchFlags.getD k false = false) :
    pipeline_results files dispatchFlags perm
      = perm.map (fun i => parseFile (files.getD i .malformed)) := by
  unfold pipeline_results
  apply List.map_congr_left
  intro i _
  rw [h i]
  simp [worker]

/-- A run whose cancellation flag is clear at every check point reaches the
CSV-writing stage with the rows of the parseable files, aggregated in
completion order. -/
theorem run_pipeline_done (code : Nat) (dlSched : List (Bool × List Nat))
    (files : List XmlFile) (dispatchFlags : List Bool) (perm : List Nat)
    (drainFlags : List Bool) (base ext : String)
    (hcode : raise_for_status code = .ok ())
    (hdl : ∀ p ∈ dlSched, p.1 = false)
    (hdispatch : ∀ k, dispatchFlags.getD k false = false)
    (hdrain : ∀ k, drainFlags.getD k false = false) :
    run_pipeline code dlSched (.ok files) dispatchFlags perm drainFlags base ext
      = .done (write_split_csv
          (perm.flatMap (fun i => fileRows (files.getD i .malformed))) base ext) := by
  obtain ⟨f, d, hfd⟩ := download_loop_completes dlSched [] 0 hdl
  rw [run_pipeline, hcode, hfd]
  rw [pipeline_results_noflag files dispatchFlags perm hdispatch]
  rw [drainFrom_complete _ drainFlags [] (fun k _ => hdrain k)]
  rw [List.nil_append, List.flatMap_map]
  rfl

/-- Completion order only permutes the aggregate: its multiset of rows is
the multiset of the rows of the parseable files. -/
theorem perm_agg_multiset (files : List XmlFile) (perm : List Nat)
    (hperm : perm.Perm (List.range files.length)) :
    ((perm.flatMap (fun i => fileRows (files.getD i .malformed)) : List Row) : Multiset Row)
      = ((files.flatMap fileRows : List Row) : Multiset Row) := by
  rw [Multiset.coe_eq_coe]
  have h1 := hperm.flatMap_right (fun i => fileRows (files.getD i .malformed))
  rw [range_getD_flatMap XmlFile.malformed files fileRows] at h1
  exact h1

theorem getD_replicate_false (n : Nat) : ∀ k, (List.replicate n false).getD k false = false := by
  induction n with
  | zero => intro k; cases k <;> rfl
  | succ n ih =>
    intro k
    cases k with
    | zero => rfl
    | succ k => rw [List.replicate_succ, List.getD_cons_succ]; exact ih k

theorem getD_nil_false : ∀ k, ([] : List Bool).getD k false = false := by
  intro k; cases k <;> rfl

/-! ### Claims about the whole pipeline -/

/-- C1: with cancellation never requested at any check point, the run
terminates Done and the multiset of rows across the written CSV files
equals the concatenation of the device records of every parseable
extracted file (each file contributing its rows in document order);
a file that fails to parse contributes no rows at all. -/
theorem claim_C1 (code : Nat) (dlSched : List (Bool × List Nat)) (files : List XmlFile)
    (dispatchFlags : List Bool) (perm : List Nat) (drainFlags : List Bool) (base ext : String)
    (hcode : raise_for_status code = .ok ())
    (hdl : ∀ p ∈ dlSched, p.1 = false)
    (hdispatch : ∀ k, dispatchFlags.getD k false = false)
    (hdrain : ∀ k, drainFlags.getD k false = false)
    (hperm : perm.Perm (List.range files.length)) :
    ∃ csv, run_pipeline code dlSched (.ok files) dispatchFlags perm drainFlags base ext
        = .done csv ∧
      ((csv.flatMap (fun f => f.2) : List Row) : Multiset Row)
        = ((files.flatMap fileRows : List Row) : Multiset Row) ∧
      fileRows XmlFile.malformed = [] := by
  refine ⟨_, run_pipeline_done code dlSched files dispatchFlags perm drainFlags base ext
    hcode hdl hdispatch hdrain, ?_, rfl⟩
  rw [write_split_csv_flatMap]
  exact perm_agg_multiset files perm hperm

/-- Witness for C1: a one-file archive processed without cancellation. -/
theorem claim_C1_witness :
    ∃ csv, run_pipeline 200 []
        (.ok [XmlFile.wellFormed (XmlNode.mk "r" none [XmlNode.mk "g:device" none []])])
        [] [0] [] "out" ".csv" = .done csv ∧
      ((csv.flatMap (fun f => f.2) : List Row) : Multiset Row)
        = (([XmlFile.wellFormed (XmlNode.mk "r" none [XmlNode.mk "g:device" none []])].flatMap
            fileRows : List Row) : Multiset Row) ∧
      fileRows XmlFile.malformed = [] :=
  claim_C1 200 [] [XmlFile.wellFormed (XmlNode.mk "r" none [XmlNode.mk "g:device" none []])]
    [] [0] [] "out" ".csv" rfl (by simp) getD_nil_false getD_nil_false (by decide)

/-- C4: if the cancellation flag becomes set while parse results are still
pending, the draining loop stops, the run terminates before the CSV stage
(no CSV is produced, the aggregated rows are discarded), and any worker
dispatched after the flag is set returns zero rows. -/
theorem claim_C4 (code : Nat) (dlSched : List (Bool × List Nat)) (files : List XmlFile)
    (dispatchFlags : List Bool) (perm : List Nat) (drainFlags : List Bool) (base ext : String)
    (hcode : raise_for_status code = .ok ())
    (hdl : ∀ p ∈ dlSched, p.1 = false)
    (hflag : ∃ k, k < perm.length ∧ drainFlags.getD k false = true) :
    run_pipeline code dlSched (.ok files) dispatchFlags perm drainFlags base ext
        = .cancelledParsing ∧
    (∀ csv, run_pipeline code dlSched (.ok files) dispatchFlags perm drainFlags base ext
        ≠ .done csv) ∧
    (∀ f, worker true f = .ok []) := by
  obtain ⟨fl, d, hfd⟩ := download_loop_completes dlSched [] 0 hdl
  have hnone : drainFrom [] drainFlags (pipeline_results files dispatchFlags perm) = none := by
    apply drainFrom_cancelled
    obtain ⟨k, hk, hkt⟩ := hflag
    exact ⟨k, by simpa [pipeline_results] using hk, hkt⟩
  have hrun : run_pipeline code dlSched (.ok files) dispatchFlags perm drainFlags base ext
      = .cancelledParsing := by
    rw [run_pipeline, hcode, hfd, hnone]
  refine ⟨hrun, fun csv h => ?_, fun f => rfl⟩
  rw [hrun] at h
  exact RunResult.noConfusion h

/-- Witness for C4: the flag is observed set at the first draining check. -/
theorem claim_C4_witness :
    run_pipeline 200 [] (.ok []) [] [0] [true] "out" ".csv" = .cancelledParsing ∧
    (∀ csv, run_pipeline 200 [] (.ok []) [] [0] [true] "out" ".csv" ≠ .done csv) ∧
    (∀ f, worker true f = .ok []) :=
  claim_C4 200 [] [] [] [0] [true] "out" ".csv" rfl (by simp) ⟨0, by decide, rfl⟩

/-- C5: if the cancellation flag becomes set between chunk writes, the
acquirer returns normally in the cancelled state, the partial file's size
is at most the byte total reported as downloaded at that moment, the
status is "Cancelled during download", and no CSV is produced. -/
theorem claim_C5 (code : Nat) (dlSched : List (Bool × List Nat))
    (extraction : Except Unit (List XmlFile)) (dispatchFlags : List Bool) (perm : List Nat)
    (drainFlags : List Bool) (base ext : String)
    (hcode : raise_for_status code = .ok ())
    (hflag : ∃ p ∈ dlSched, p.1 = true) :
    ∃ f d, run_pipeline code dlSched extraction dispatchFlags perm drainFlags base ext
        = .cancelledDownload f d "Cancelled during download" ∧
      f.length ≤ d ∧
      ∀ csv, run_pipeline code dlSched extraction dispatchFlags perm drainFlags base ext
        ≠ .done csv := by
  obtain ⟨f, d, hfd, hlen⟩ := download_loop_cancelled dlSched [] 0 rfl hflag
  have hrun : run_pipeline code dlSched extraction dispatchFlags perm drainFlags base ext
      = .cancelledDownload f d "Cancelled during download" := by
    rw [run_pipeline.eq_def, hcode, hfd]
  refine ⟨f, d, hrun, le_of_eq hlen, fun csv h => ?_⟩
  rw [hrun] at h
  exact RunResult.noConfusion h

/-- Witness for C5: cancellation observed before the first chunk write. -/
theorem claim_C5_witness :
    ∃ f d, run_pipeline 200 [(true, [7])] (.ok []) [] [] [] "out" ".csv"
        = .cancelledDownload f d "Cancelled during download" ∧
      f.length ≤ d ∧
      ∀ csv, run_pipeline 200 [(true, [7])] (.ok []) [] [] [] "out" ".csv" ≠ .done csv :=
  claim_C5 200 [(true, [7])] (.ok []) [] [] [] "out" ".csv" rfl ⟨(true, [7]), by simp, rfl⟩

/-- C7 counterexample: HTTP status 304 is not in the 2xx range, yet
`raise_for_status` does not raise and the run proceeds past acquisition
and extraction all the way to Done. -/
theorem claim_C7_counterexample :
    ¬ (200 ≤ 304 ∧ 304 < 300) ∧
    raise_for_status 304 = Except.ok () ∧
    run_pipeline 304 [] (.ok []) [] [] [] "out" ".csv" = .done [] := by
  exact ⟨by decide, rfl, rfl⟩

/-- C7 (amended): acquisition fails exactly on the statuses
`requests.raise_for_status` raises for, the 4xx/5xx range; on those the
run stops before extraction whatever the rest of the schedule holds. -/
theorem claim_C7 (code : Nat) (dlSched : List (Bool × List Nat))
    (extraction : Except Unit (List XmlFile)) (dispatchFlags : List Bool)
    (perm : List Nat) (drainFlags : List Bool) (base ext : String)
    (h4 : 400 ≤ code) (h6 : code < 600) :
    raise_for_status code = .error () ∧
    run_pipeline code dlSched extraction dispatchFlags perm drainFlags base ext
      = .httpError := by
  have hr : raise_for_status code = .error () := by
    unfold raise_for_status
    rw [if_pos ⟨h4, h6⟩]
  exact ⟨hr, by rw [run_pipeline.eq_def, hr]⟩

/-- Witness for C7 (amended) at status 404. -/
theorem claim_C7_witness :
    raise_for_status 404 = .error () ∧
    run_pipeline 404 [] (.ok []) [] [] [] "out" ".csv" = .httpError :=
  claim_C7 404 [] (.ok []) [] [] [] "out" ".csv" (by decide) (by decide)

/-! ### Claims about field extraction -/

/-- C2 counterexample: for whitespace-only text the extracted value is the
empty string, not null — `" "` is nonempty, hence Python-truthy, so
`find_text` returns the stripped text, which is `""`. -/
theorem claim_C2_counterexample :
    strip " " = "" ∧ find_text wsDevice ["g:serialNumber"] = some "" := by
  exact ⟨rfl, rfl⟩

/-- C2 (amended): if the element at the path is absent, or its text is
missing or the empty string, the field value is null; otherwise the value
is the trimmed text — in particular whitespace-only text yields the empty
string, not null. -/
theorem claim_C2 (device : XmlNode) (path : List String) :
    (find_rel device path = none → find_text device path = none) ∧
    (∀ element, find_rel device path = some element →
      element.text = none ∨ element.text = some "" → find_text device path = none) ∧
    (∀ element t, find_rel device path = some element → element.text = some t → t ≠ "" →
      find_text device path = some (strip t)) := by
  refine ⟨?_, ?_, ?_⟩
  · intro h
    rw [find_text.eq_def, h]
  · intro el h htext
    rw [find_text.eq_def, h]
    show (match el.text with
      | none => none
      | some t => if t = "" then none else some (strip t)) = none
    rcases htext with h0 | h0 <;> rw [h0] <;> rfl
  · intro el t h ht hne
    rw [find_text.eq_def, h]
    show (match el.text with
      | none => none
      | some t => if t = "" then none else some (strip t)) = some (strip t)
    rw [ht]
    show (if t = "" then none else some (strip t)) = some (strip t)
    rw [if_neg hne]

/-- Witness for C2 (amended): padded text is returned trimmed. -/
theorem claim_C2_witness : find_text textDevice ["g:serialNumber"] = some "x" := by
  have h := (claim_C2 textDevice ["g:serialNumber"]).2.2
    (XmlNode.mk "g:serialNumber" (some " x ") []) " x " rfl rfl (by decide)
  have hs : strip " x " = "x" := rfl
  rw [hs] at h
  exact h

/-! ### Claims about failure tolerance and the §8 scenario -/

/-- C6: a per-file parse exception only makes that file contribute zero
rows — the draining loop always completes when the flag stays clear,
appending every other file's rows; on the §8 scenario archive (three
two-device files, one malformed) the uncancelled run ends Done with a CSV
of exactly 4 rows and one logged parse failure. -/
theorem claim_C6 :
    (∀ (results : List (Except Unit (List Row))) (acc : List Row),
      drainFrom acc (List.replicate results.length false) results
        = some (acc ++ results.flatMap resRows)) ∧
    run_pipeline 200 [] (.ok scenarioFiles) [false, false, false] [0, 1, 2]
        [false, false, false] "out" ".csv"
      = .done [("out" ++ ".csv", List.replicate 4 emptyDeviceRow)] ∧
    loggedFailures (pipeline_results scenarioFiles [false, false, false] [0, 1, 2]) = 1 := by
  refine ⟨?_, by decide, by decide⟩
  intro results acc
  exact drainFrom_complete results (List.replicate results.length false) acc
    (fun k _ => getD_replicate_false results.length k)

/-! ### Claims about run-to-run determinism -/

/-- C8 counterexample: two complete uncancelled runs on the same two-file
archive, under two completion orders of the futures (both are valid
schedules of the pool), produce different CSV contents — the CSV output,
row order included, is not a deterministic function of the archive. -/
theorem claim_C8_counterexample :
    ([0, 1] : List Nat).Perm (List.range 2) ∧ ([1, 0] : List Nat).Perm (List.range 2) ∧
    run_pipeline 200 [] (.ok [fileA, fileB]) [] [0, 1] [] "out" ".csv"
      ≠ run_pipeline 200 [] (.ok [fileA, fileB]) [] [1, 0] [] "out" ".csv" := by
  exact ⟨by decide, by decide, by decide⟩

/-- C8 (amended): what is deterministic across uncancelled runs on the
same archive is the multiset of CSV rows: any two completion orders yield
Done with row multisets both equal to the archive's parseable records. -/
theorem claim_C8 (files : List XmlFile) (perm₁ perm₂ : List Nat) (base ext : String)
    (h1 : perm₁.Perm (List.range files.length))
    (h2 : perm₂.Perm (List.range files.length)) :
    ∃ csv₁ csv₂,
      run_pipeline 200 [] (.ok files) [] perm₁ [] base ext = .done csv₁ ∧
      run_pipeline 200 [] (.ok files) [] perm₂ [] base ext = .done csv₂ ∧
      ((csv₁.flatMap (fun f => f.2) : List Row) : Multiset Row)
        = ((csv₂.flatMap (fun f => f.2) : List Row) : Multiset Row) := by
  refine ⟨_, _,
    run_pipeline_done 200 [] files [] perm₁ [] base ext rfl (by simp)
      getD_nil_false getD_nil_false,
    run_pipeline_done 200 [] files [] perm₂ [] base ext rfl (by simp)
      getD_nil_false getD_nil_false, ?_⟩
  rw [write_split_csv_flatMap, write_split_csv_flatMap]
  exact (perm_agg_multiset files perm₁ h1).trans (perm_agg_multiset files perm₂ h2).symm

/-- Witness for C8 (amended) on the two-file archive. -/
theorem claim_C8_witness :
    ∃ csv₁ csv₂,
      run_pipeline 200 [] (.ok [fileA, fileB]) [] [0, 1] [] "out" ".csv" = .done csv₁ ∧
      run_pipeline 200 [] (.ok [fileA, fileB]) [] [1, 0] [] "out" ".csv" = .done csv₂ ∧
      ((csv₁.flatMap (fun f => f.2) : List Row) : Multiset Row)
        = ((csv₂.flatMap (fun f => f.2) : List Row) : Multiset Row) :=
  claim_C8 [fileA, fileB] [0, 1] [1, 0] "out" ".csv" (by decide) (by decide)

/-! ### Claims about the row shape -/

theorem mkRow_keys (device : XmlNode) : (mkRow device).map Prod.fst = fieldNames := rfl

theorem insertKeys_fieldNames_self : insertKeys fieldNames fieldNames = fieldNames := by decide

theorem insertKeys_nil_fieldNames : insertKeys [] fieldNames = fieldNames := by decide

theorem foldl_insert_fieldNames :
    ∀ rows : List Row, (∀ row ∈ rows, row.map Prod.fst = fieldNames) →
      rows.foldl (fun acc row => insertKeys acc (row.map Prod.fst)) fieldNames = fieldNames := by
  intro rows
  induction rows with
  | nil => intro _; rfl
  | cons r rest ih =>
    intro h
    rw [List.foldl_cons, h r (by simp), insertKeys_fieldNames_self]
    exact ih (fun row hrow => h row (by simp [hrow]))

theorem unionKeys_fieldNames {rows : List Row} (hne : rows ≠ [])
    (h : ∀ row ∈ rows, row.map Prod.fst = fieldNames) : unionKeys rows = fieldNames := by
  cases rows with
  | nil => exact absurd rfl hne
  | cons r rest =>
    rw [unionKeys, List.foldl_cons, h r (by simp), insertKeys_nil_fieldNames]
    exact foldl_insert_fieldNames rest (fun row hrow => h row (by simp [hrow]))

/-- C10: every row `parse_xml_file` returns has exactly the nine fields in
the fixed declared order, whatever elements the device holds; any
nonempty uniform row set therefore gets exactly that nine-column header,
and so does every CSV file the writer emits from such rows. -/
theorem claim_C10 :
    (∀ root row, row ∈ parse_xml_file root → row.map Prod.fst = fieldNames) ∧
    (∀ rows : List Row, rows ≠ [] → (∀ row ∈ rows, row.map Prod.fst = fieldNames) →
      unionKeys rows = fieldNames) ∧
    (∀ (rows : List Row) (base ext : String),
      (∀ row ∈ rows, row.map Prod.fst = fieldNames) →
      ∀ f ∈ write_split_csv rows base ext, unionKeys f.2 = fieldNames) := by
  refine ⟨?_, fun rows hne h => unionKeys_fieldNames hne h, ?_⟩
  · intro root row hrow
    unfold parse_xml_file at hrow
    obtain ⟨d, _, rfl⟩ := List.mem_map.mp hrow
    rfl
  · intro rows base ext h f hf
    obtain ⟨hne, hsub⟩ := write_split_csv_chunks rows base ext f hf
    exact unionKeys_fieldNames hne (fun row hrow => h row (hsub row hrow))

/-- Witness for C10: the header of a one-row set from a childless device. -/
theorem claim_C10_witness :
    unionKeys [mkRow (XmlNode.mk "g:device" none [])] = fieldNames :=
  claim_C10.2.1 [mkRow (XmlNode.mk "g:device" none [])] (by decide) (by decide)
